import Mathlib

/-!
Verification of the simplex-method core of the `linear-programming` web
application: data model, tableau construction (`createInitialTableau`),
pivot selection (`canImprove`, `findPivotColumn`, `findPivotRow`),
pivot execution (`performPivot`), solution extraction (`extractSolution`),
the solve loop with step recording (`solveSimplexMethod`), and the
primal-to-dual transformation (`dualProblem`).

The embedding follows `src/src/views/Simplex.vue` and the dual-problem view
(`dualProblem`) line by line.  JavaScript numbers are modelled as rationals
(exact arithmetic); in-place array mutation is modelled by returning the
updated tableau.  The solver's `while` loop, which has no iteration bound in
the source, is modelled with explicit fuel; running out of fuel is a
distinguished outcome that no claim about terminating solves depends on.
Array reads `xs[j]` in the source are modelled as `List.getD xs j 0`; every
read performed on the inputs the theorems quantify over is in bounds, where
the two coincide (an out-of-bounds read is `undefined` in JavaScript and is
not relied on by any theorem below).
-/

namespace SimplexApp

/-- The `relation` field of a constraint (`'<='`, `'='`, `'>='` in the source). -/
inductive Relation
  | le
  | eq
  | ge
deriving DecidableEq

/-- The `objectiveType` state (`'maximize' | 'minimize'`). -/
inductive ObjectiveType
  | maximize
  | minimize
deriving DecidableEq

/-- The `Constraint` interface of `Simplex.vue`. -/
structure Constraint where
  coefficients : List ℚ
  relation : Relation
  value : ℚ
deriving DecidableEq

/-- Default constraint used only to give `List.getD` a second argument;
never observed on in-bounds reads. -/
def cDefault : Constraint := ⟨[], Relation.le, 0⟩

/-- A linear program: the component state `objectiveType`,
`objectiveCoefficients`, `constraints`.  The counters `variablesCount` and
`constraintsCount` of the component are kept equal to the lengths of these
lists by the (excluded) editing surface, so they are derived here. -/
structure LinearProgram where
  objectiveType : ObjectiveType
  objectiveCoefficients : List ℚ
  constraints : List Constraint
deriving DecidableEq

def variablesCount (p : LinearProgram) : Nat :=
  p.objectiveCoefficients.length

def constraintsCount (p : LinearProgram) : Nat :=
  p.constraints.length

/-- A tableau is a matrix of numbers, `number[][]` in the source. -/
abbrev Tableau := List (List ℚ)

/-- Reads `tableau[i][j]` (reads out of range are not relied on by the theorems). -/
def entry (t : Tableau) (i j : Nat) : ℚ :=
  (t.getD i []).getD j 0

/-- Reads `tableau[0].length`, the number of columns. -/
def rowLen (t : Tableau) : Nat :=
  (t.headD []).length

/-- Source `createInitialTableau` of `Simplex.vue`: a `(constraintsCount + 1) ×
(variablesCount + constraintsCount + 1)` zero matrix, then row 0 receives the
(negated, when maximizing) objective coefficients in the decision-variable
columns, and each constraint row `i + 1` receives the constraint
coefficients, a `1` in its own slack column `variablesCount + i`, and the
constraint's right-hand side in the last column.  The `relation` field of a
constraint is never read. -/
def createInitialTableau (p : LinearProgram) : Tableau :=
  let n := variablesCount p
  let m := constraintsCount p
  let cols := n + m + 1
  let row0 : List ℚ := (List.range cols).map fun j =>
    if j < n then
      match p.objectiveType with
      | ObjectiveType.maximize => -(p.objectiveCoefficients.getD j 0)
      | ObjectiveType.minimize => p.objectiveCoefficients.getD j 0
    else 0
  let constraintRow : Nat → List ℚ := fun i =>
    (List.range cols).map fun j =>
      if j < n then (p.constraints.getD i cDefault).coefficients.getD j 0
      else if j = n + i then 1
      else if j = cols - 1 then (p.constraints.getD i cDefault).value
      else 0
  row0 :: (List.range m).map constraintRow

/-- Source `canImprove`: some entry of row 0, excluding the last (RHS) column,
is strictly negative (`tableau[0].slice(0, -1).some(v => v < 0)`). -/
def canImprove (t : Tableau) : Bool :=
  (t.headD []).dropLast.any fun v => decide (v < 0)

/-- Source `findPivotColumn`: index of the first negative entry of row 0, excluding
the RHS column (`tableau[0].slice(0, -1).findIndex(v => v < 0)`). -/
def findPivotColumn (t : Tableau) : Nat :=
  (t.headD []).dropLast.findIdx fun v => decide (v < 0)

/-- The JavaScript comparison `ratio < minRatio` where `minRatio` starts at
`Infinity` (modelled as `none`): anything is below `Infinity`. -/
def ratioBelow (r : ℚ) (minRatio : Option ℚ) : Bool :=
  match minRatio with
  | none => true
  | some m => decide (r < m)

/-- The loop body of `findPivotRow`, iterating over the remaining row
indices with the running `minRatio` and candidate `pivotRow` (`none`
standing for the initial `Infinity` and `-1`): rows with a non-positive
entry in the pivot column are skipped, and a row replaces the candidate
exactly when its ratio `RHS / entry` is strictly below the running minimum. -/
def findPivotRowGo (t : Tableau) (col lastCol : Nat) :
    List Nat → Option ℚ → Option Nat → Option Nat
  | [], _, best => best
  | i :: rest, minRatio, best =>
    if entry t i col ≤ 0 then
      findPivotRowGo t col lastCol rest minRatio best
    else
      let ratio := entry t i lastCol / entry t i col
      if ratioBelow ratio minRatio then
        findPivotRowGo t col lastCol rest (some ratio) (some i)
      else
        findPivotRowGo t col lastCol rest minRatio best

/-- Source `findPivotRow`: the minimum-ratio test over constraint rows
`1 .. tableau.length - 1`; `none` models the source's `-1`. -/
def findPivotRow (t : Tableau) (col : Nat) : Option Nat :=
  findPivotRowGo t col (rowLen t - 1) (List.range' 1 (t.length - 1)) none none

/-- Source `performPivot`: divide the pivot row by the pivot value, then subtract
`factor × (normalized pivot row)` from every other row `i`, where `factor`
is row `i`'s entry in the pivot column (read before the row is updated,
as in the source, where the pivot row is normalized first). -/
def performPivot (t : Tableau) (row col : Nat) : Tableau :=
  let pivotValue := entry t row col
  let normRow : List ℚ := (List.range (rowLen t)).map fun j =>
    entry t row j / pivotValue
  (List.range t.length).map fun i =>
    if i = row then normRow
    else
      (List.range (rowLen t)).map fun j =>
        entry t i j - entry t i col * normRow.getD j 0

/-- The inner loop of `extractSolution` for one column `j`: scan the given
row indices; the accumulator is `oneRow` (`none` for `-1` / `hasOne = false`).
A second entry equal to `1`, or any entry that is neither `0` nor `1`,
aborts the scan with `-1` (here `none`). -/
def findUnitRow (t : Tableau) (j : Nat) : List Nat → Option Nat → Option Nat
  | [], best => best
  | i :: rest, best =>
    if entry t i j = 1 then
      match best with
      | some _ => none
      | none => findUnitRow t j rest (some i)
    else if entry t i j = 0 then
      findUnitRow t j rest best
    else
      none

/-- The row making decision column `j` basic, if any: the scan of
`extractSolution` over rows `1 .. tableau.length - 1`. -/
def basicRow (t : Tableau) (j : Nat) : Option Nat :=
  findUnitRow t j (List.range' 1 (t.length - 1)) none

/-- Source `extractSolution`: each decision variable `j < variablesCount` takes the
RHS value of the row found by the unit-column scan (or `0`); the objective
value is `-tableau[0][lastCol]` when maximizing and `tableau[0][lastCol]`
when minimizing. -/
def extractSolution (ot : ObjectiveType) (nVars : Nat) (t : Tableau) :
    List ℚ × ℚ :=
  let cols := rowLen t
  let values := (List.range nVars).map fun j =>
    match basicRow t j with
    | some i => entry t i (cols - 1)
    | none => (0 : ℚ)
  let z := entry t 0 (cols - 1)
  (values, match ot with
    | ObjectiveType.maximize => -z
    | ObjectiveType.minimize => z)

/-- The `TableauStep` interface: snapshot, optional pivot position,
description label. -/
structure TableauStep where
  tableau : Tableau
  pivot : Option (Nat × Nat)
  description : String
deriving DecidableEq

/-- Outcome of a solve: the source returns `{status: 'optimal', solution,
objectiveValue}` or `{status: 'unbounded'}`; `outOfFuel` marks runs that
exhaust the explicit fuel, which the unbounded source loop does not have. -/
inductive SolveResult
  | optimal (values : List ℚ) (objectiveValue : ℚ)
  | unbounded
  | outOfFuel
deriving DecidableEq

/-- The snapshot pushed when no valid pivot row exists. -/
def unboundedStep (t : Tableau) : TableauStep :=
  ⟨t, none, "Problem is unbounded"⟩

/-- The snapshot pushed before a pivot is applied, tagged with the pivot
position and the iteration label of the source. -/
def preStep (t : Tableau) (row col iteration : Nat) : TableauStep :=
  ⟨t, some (row, col),
    "Iteration " ++ toString iteration ++ ": Selected pivot element at row "
      ++ toString (row + 1) ++ ", column " ++ toString (col + 1)⟩

/-- The snapshot pushed after a pivot is applied. -/
def postStep (t : Tableau) (iteration : Nat) : TableauStep :=
  ⟨t, none, "Iteration " ++ toString iteration ++ ": After pivot operation"⟩

/-- The final snapshot pushed when no further improvement is possible. -/
def finalStep (t : Tableau) : TableauStep :=
  ⟨t, none, "Final tableau - Optimal solution found"⟩

/-- The `while (canImprove)` loop of `solveSimplexMethod`, with the recorded
steps passed as an accumulator and explicit fuel.  The third component of
the result is instrumentation only — the number of pivots performed — used
to state the step-count properties; the first two components mirror the
source (`steps` and the returned solution object). -/
def solveLoop (ot : ObjectiveType) (nVars : Nat) :
    Nat → Tableau → Nat → List TableauStep →
    List TableauStep × SolveResult × Nat
  | 0, _, _, steps => (steps, SolveResult.outOfFuel, 0)
  | fuel + 1, t, iteration, steps =>
    if canImprove t then
      let col := findPivotColumn t
      match findPivotRow t col with
      | none => (steps ++ [unboundedStep t], SolveResult.unbounded, 0)
      | some row =>
        let t2 := performPivot t row col
        let rest := solveLoop ot nVars fuel t2 (iteration + 1)
          (steps ++ [preStep t row col iteration, postStep t2 iteration])
        (rest.1, rest.2.1, rest.2.2 + 1)
    else
      let sol := extractSolution ot nVars t
      (steps ++ [finalStep t], SolveResult.optimal sol.1 sol.2, 0)

/-- Source `solveSimplexMethod`: build the initial tableau, record the initial
snapshot, and run the pivot loop (with fuel, see `solveLoop`). -/
def solveSimplexMethod (p : LinearProgram) (fuel : Nat) :
    List TableauStep × SolveResult × Nat :=
  let t := createInitialTableau p
  solveLoop p.objectiveType (variablesCount p) fuel t 1
    [⟨t, none, "Initial tableau"⟩]

/-- The `dualProblem` computed property of the dual view: swap
maximize/minimize, primal constraint values become dual objective
coefficients, dual constraint `i` takes column `i` of the primal coefficient
matrix, relation `≥` when the primal maximizes (else `≤`), and value the
primal objective coefficient `i`. -/
def dualProblem (p : LinearProgram) : LinearProgram :=
  let dualObjectiveType := match p.objectiveType with
    | ObjectiveType.maximize => ObjectiveType.minimize
    | ObjectiveType.minimize => ObjectiveType.maximize
  let dualObjectiveCoefficients := p.constraints.map fun c => c.value
  let dualConstraints := (List.range (variablesCount p)).map fun i =>
    { coefficients := p.constraints.map fun c => c.coefficients.getD i 0
      relation := match p.objectiveType with
        | ObjectiveType.maximize => Relation.ge
        | ObjectiveType.minimize => Relation.le
      value := p.objectiveCoefficients.getD i 0 : Constraint }
  { objectiveType := dualObjectiveType
    objectiveCoefficients := dualObjectiveCoefficients
    constraints := dualConstraints }

/-- The program with every constraint's coefficient list truncated to the
first `variablesCount` entries (used to state that the tableau builder
ignores surplus coefficients). -/
def truncateProgram (p : LinearProgram) : LinearProgram :=
  { p with constraints := p.constraints.map fun c =>
      { c with coefficients := c.coefficients.take (variablesCount p) } }

/-- The program with every constraint's relation replaced by `≤` (used to
state that the builder treats every constraint as `≤`). -/
def relaxProgram (p : LinearProgram) : LinearProgram :=
  { p with constraints := p.constraints.map fun c =>
      { c with relation := Relation.le } }

/-- The textbook program of Example 1: maximize `3x₁ + 2x₂` subject to
`x₁ + x₂ ≤ 4` and `x₁ + 3x₂ ≤ 6`. -/
def exampleOne : LinearProgram :=
  { objectiveType := ObjectiveType.maximize
    objectiveCoefficients := [3, 2]
    constraints :=
      [⟨[1, 1], Relation.le, 4⟩, ⟨[1, 3], Relation.le, 6⟩] }

/-- A two-variable program with a three-coefficient constraint
(shape-inconsistent). -/
def mismatchedProgram : LinearProgram :=
  { objectiveType := ObjectiveType.maximize
    objectiveCoefficients := [1, 1]
    constraints := [⟨[1, 2, 3], Relation.le, 5⟩] }

/-- A program whose very first pivot attempt discovers unboundedness:
maximize `x₁` subject to `-x₁ ≤ 1`. -/
def unboundedAtOnce : LinearProgram :=
  { objectiveType := ObjectiveType.maximize
    objectiveCoefficients := [1]
    constraints := [⟨[-1], Relation.le, 1⟩] }

/-- The primal program of Example 3: maximize `5x₁ + 4x₂` subject to
`2x₁ + x₂ ≤ 10` and `x₁ + 3x₂ ≤ 15`. -/
def exampleThree : LinearProgram :=
  { objectiveType := ObjectiveType.maximize
    objectiveCoefficients := [5, 4]
    constraints :=
      [⟨[2, 1], Relation.le, 10⟩, ⟨[1, 3], Relation.le, 15⟩] }

end SimplexApp

namespace SimplexApp

/-! ### Generic evaluation lemmas -/

theorem getD_rangeMap {α : Type} (n : Nat) (f : Nat → α) (d : α) (i : Nat)
    (h : i < n) : ((List.range n).map f).getD i d = f i := by
  simp [List.getD_eq_getElem?_getD, List.getElem?_map, List.getElem?_range, h]

theorem getD_take (l : List ℚ) (n i : Nat) (h : i < n) :
    (l.take n).getD i 0 = l.getD i 0 := by
  rw [List.getD_eq_getElem?_getD, List.getD_eq_getElem?_getD,
    List.getElem?_take, if_pos h]

theorem getD_map_constraint (l : List Constraint) (f : Constraint → Constraint)
    (i : Nat) (h : i < l.length) :
    (l.map f).getD i cDefault = f (l.getD i cDefault) := by
  simp [List.getD_eq_getElem?_getD, List.getElem?_map,
    List.getElem?_eq_getElem h]

/-! ### Pivot execution -/

theorem entry_performPivot (t : Tableau) (row col i j : Nat)
    (hi : i < t.length) (hj : j < rowLen t) :
    entry (performPivot t row col) i j =
      if i = row then entry t row j / entry t row col
      else entry t i j -
        entry t i col * (entry t row j / entry t row col) := by
  simp only [performPivot, entry]
  rw [getD_rangeMap t.length _ [] i hi]
  by_cases hir : i = row
  · rw [if_pos hir, if_pos hir, getD_rangeMap (rowLen t) _ 0 j hj]
  · rw [if_neg hir, if_neg hir, getD_rangeMap (rowLen t) _ 0 j hj,
      getD_rangeMap (rowLen t) _ 0 j hj]

/-- C6: for every tableau and every pivot position `(row, col)` whose pivot
element is nonzero, the pivot operation makes the entry at `(row, col)`
exactly `1` and zeroes column `col` in every other row, row 0 included
(exact arithmetic). -/
theorem pivotUnitColumn (t : Tableau) (row col : Nat)
    (hrow : row < t.length) (hcol : col < rowLen t)
    (hnz : entry t row col ≠ 0) :
    entry (performPivot t row col) row col = 1 ∧
    ∀ i, i < t.length → i ≠ row → entry (performPivot t row col) i col = 0 := by
  constructor
  · rw [entry_performPivot t row col row col hrow hcol, if_pos rfl,
      div_self hnz]
  · intro i hi hne
    rw [entry_performPivot t row col i col hi hcol, if_neg hne,
      div_self hnz, mul_one, sub_self]

/-- Witness for C6: the first pivot of the Example-1 tableau, at position
`(1, 0)`, produces a unit column there. -/
theorem pivotUnitColumn_witness :
    entry (performPivot [[-3, -2, 0, 0, 0], [1, 1, 1, 0, 4], [1, 3, 0, 1, 6]]
        1 0) 1 0 = 1 ∧
    ∀ i, i < 3 → i ≠ 1 →
      entry (performPivot [[-3, -2, 0, 0, 0], [1, 1, 1, 0, 4], [1, 3, 0, 1, 6]]
          1 0) i 0 = 0 := by
  have h := pivotUnitColumn
    [[-3, -2, 0, 0, 0], [1, 1, 1, 0, 4], [1, 3, 0, 1, 6]] 1 0
    (by norm_num) (by norm_num [rowLen]) (by norm_num [entry])
  simpa using h

/-! ### Tableau builder -/

theorem entry_createInitialTableau_zero (p : LinearProgram) (j : Nat)
    (hj : j < variablesCount p + constraintsCount p + 1) :
    entry (createInitialTableau p) 0 j =
      if j < variablesCount p then
        match p.objectiveType with
        | ObjectiveType.maximize => -(p.objectiveCoefficients.getD j 0)
        | ObjectiveType.minimize => p.objectiveCoefficients.getD j 0
      else 0 := by
  simp only [createInitialTableau, entry, List.getD_cons_zero]
  rw [getD_rangeMap _ _ 0 j hj]

theorem entry_createInitialTableau_succ (p : LinearProgram) (i j : Nat)
    (hi : i < constraintsCount p)
    (hj : j < variablesCount p + constraintsCount p + 1) :
    entry (createInitialTableau p) (i + 1) j =
      if j < variablesCount p then
        (p.constraints.getD i cDefault).coefficients.getD j 0
      else if j = variablesCount p + i then 1
      else if j = variablesCount p + constraintsCount p + 1 - 1 then
        (p.constraints.getD i cDefault).value
      else 0 := by
  simp only [createInitialTableau, entry, List.getD_cons_succ]
  rw [getD_rangeMap _ _ [] i hi, getD_rangeMap _ _ 0 j hj]

/-- C4: for every shape-consistent program, the initial tableau has
`constraintsCount + 1` rows and `variablesCount + constraintsCount + 1`
columns; row 0 carries the (sign-adjusted) objective coefficients in the
decision columns; constraint row `i + 1` copies the constraint coefficients,
has `1` in its own slack column, the constraint value in the RHS column and
`0` elsewhere; and the relation fields have no effect on the result — the
tableau equals the one built with every relation replaced by `≤`. -/
theorem initialTableauSpec (p : LinearProgram)
    (_hshape : ∀ c ∈ p.constraints,
      c.coefficients.length = variablesCount p) :
    (createInitialTableau p).length = constraintsCount p + 1 ∧
    (∀ i, i < constraintsCount p + 1 →
      ((createInitialTableau p).getD i []).length =
        variablesCount p + constraintsCount p + 1) ∧
    (∀ j, j < variablesCount p →
      entry (createInitialTableau p) 0 j =
        match p.objectiveType with
        | ObjectiveType.maximize => -(p.objectiveCoefficients.getD j 0)
        | ObjectiveType.minimize => p.objectiveCoefficients.getD j 0) ∧
    (∀ i, i < constraintsCount p →
      (∀ j, j < variablesCount p →
        entry (createInitialTableau p) (i + 1) j =
          (p.constraints.getD i cDefault).coefficients.getD j 0) ∧
      entry (createInitialTableau p) (i + 1) (variablesCount p + i) = 1 ∧
      entry (createInitialTableau p) (i + 1)
          (variablesCount p + constraintsCount p) =
        (p.constraints.getD i cDefault).value ∧
      (∀ j, j < variablesCount p + constraintsCount p + 1 →
        ¬ j < variablesCount p → j ≠ variablesCount p + i →
        j ≠ variablesCount p + constraintsCount p →
        entry (createInitialTableau p) (i + 1) j = 0)) ∧
    createInitialTableau p = createInitialTableau (relaxProgram p) := by
  refine ⟨?_, ?_, ?_, ?_, ?_⟩
  · simp [createInitialTableau, constraintsCount]
  · intro i hi
    match i with
    | 0 =>
      simp [createInitialTableau]
    | k + 1 =>
      have hk : k < constraintsCount p := by
        simpa [createInitialTableau, constraintsCount] using hi
      simp only [createInitialTableau, List.getD_cons_succ]
      rw [getD_rangeMap _ _ [] k hk]
      simp
  · intro j hj
    rw [entry_createInitialTableau_zero p j (by omega), if_pos hj]
  · intro i hi
    refine ⟨?_, ?_, ?_, ?_⟩
    · intro j hj
      rw [entry_createInitialTableau_succ p i j hi (by omega), if_pos hj]
    · rw [entry_createInitialTableau_succ p i (variablesCount p + i) hi
        (by omega), if_neg (by omega), if_pos rfl]
    · rw [entry_createInitialTableau_succ p i
        (variablesCount p + constraintsCount p) hi (by omega),
        if_neg (by omega), if_neg (by omega), if_pos (by omega)]
    · intro j hj h1 h2 h3
      rw [entry_createInitialTableau_succ p i j hi hj,
        if_neg h1, if_neg h2, if_neg (by omega)]
  · simp only [createInitialTableau, relaxProgram, variablesCount,
      constraintsCount, List.length_map]
    refine congrArg₂ _ rfl ?_
    refine List.map_congr_left ?_
    intro a ha
    have hal : a < p.constraints.length := by
      simpa using List.mem_range.mp ha
    refine List.map_congr_left ?_
    intro b hb
    rw [getD_map_constraint p.constraints _ a hal]

/-- Witness for C4: the Example-1 program satisfies the shape hypothesis and
its tableau has 3 rows. -/
theorem initialTableauSpec_witness :
    (createInitialTableau exampleOne).length = constraintsCount exampleOne + 1 :=
  (initialTableauSpec exampleOne (by decide)).1

/-- C2 (amended): the tableau builder performs no shape validation; it reads
only the first `variablesCount` coefficients of every constraint, so a
constraint with surplus coefficients yields the same tableau as its
truncation — a tableau is always produced. -/
theorem builderIgnoresSurplusCoefficients (p : LinearProgram) :
    createInitialTableau p = createInitialTableau (truncateProgram p) := by
  simp only [createInitialTableau, truncateProgram, variablesCount,
    constraintsCount, List.length_map]
  refine congrArg₂ _ rfl ?_
  refine List.map_congr_left ?_
  intro a ha
  have hal : a < p.constraints.length := by
    simpa using List.mem_range.mp ha
  refine List.map_congr_left ?_
  intro b hb
  have hbr : b < p.objectiveCoefficients.length + p.constraints.length + 1 := by
    simpa using List.mem_range.mp hb
  rw [getD_map_constraint p.constraints _ a hal]
  by_cases hbv : b < p.objectiveCoefficients.length
  · rw [if_pos hbv, if_pos hbv, getD_take _ _ b hbv]
  · rw [if_neg hbv, if_neg hbv]

/-- C2 counterexample: on a two-variable program with a three-coefficient
constraint the builder does not fail — it produces a tableau (the surplus
coefficient is ignored), contradicting "a ShapeMismatch error is raised and
no tableau is produced". -/
theorem shapeMismatchCounterexample :
    (mismatchedProgram.constraints.getD 0 cDefault).coefficients.length ≠
      variablesCount mismatchedProgram ∧
    createInitialTableau mismatchedProgram =
      [[-1, -1, 0, 0], [1, 2, 1, 5]] := by
  constructor
  · decide
  · norm_num [createInitialTableau, mismatchedProgram, variablesCount,
      constraintsCount, cDefault, List.range, List.range.loop]

/-! ### Solution extraction -/

theorem findUnitRow_someAcc (t : Tableau) (j : Nat) :
    ∀ (l : List Nat) (r0 r : Nat),
      findUnitRow t j l (some r0) = some r ↔
        (r = r0 ∧ ∀ i ∈ l, entry t i j = 0) := by
  intro l
  induction l with
  | nil =>
    intro r0 r
    simp [findUnitRow, eq_comm]
  | cons i rest ih =>
    intro r0 r
    by_cases h1 : entry t i j = 1
    · rw [show findUnitRow t j (i :: rest) (some r0) = none from by
        simp [findUnitRow, h1]]
      constructor
      · intro h; simp at h
      · rintro ⟨rfl, hall⟩
        exact absurd (hall i (List.mem_cons_self i rest))
          (by rw [h1]; norm_num)
    · by_cases h0 : entry t i j = 0
      · rw [show findUnitRow t j (i :: rest) (some r0) =
            findUnitRow t j rest (some r0) from by simp [findUnitRow, h1, h0]]
        rw [ih r0 r]
        constructor
        · rintro ⟨rfl, hall⟩
          refine ⟨rfl, ?_⟩
          intro x hx
          rcases List.mem_cons.mp hx with rfl | hx2
          · exact h0
          · exact hall x hx2
        · rintro ⟨rfl, hall⟩
          exact ⟨rfl, fun x hx => hall x (List.mem_cons_of_mem i hx)⟩
      · rw [show findUnitRow t j (i :: rest) (some r0) = none from by
          simp [findUnitRow, h1, h0]]
        constructor
        · intro h; simp at h
        · rintro ⟨rfl, hall⟩
          exact absurd (hall i (List.mem_cons_self i rest)) h0

theorem findUnitRow_noneAcc (t : Tableau) (j : Nat) :
    ∀ (l : List Nat), l.Nodup → ∀ r : Nat,
      (findUnitRow t j l none = some r ↔
        (r ∈ l ∧ entry t r j = 1 ∧
          ∀ i ∈ l, i ≠ r → entry t i j = 0)) := by
  intro l
  induction l with
  | nil =>
    intro _ r
    simp [findUnitRow]
  | cons i rest ih =>
    intro hnd r
    have hiNot : i ∉ rest := (List.nodup_cons.mp hnd).1
    have hrest : rest.Nodup := (List.nodup_cons.mp hnd).2
    by_cases h1 : entry t i j = 1
    · rw [show findUnitRow t j (i :: rest) none =
          findUnitRow t j rest (some i) from by simp [findUnitRow, h1]]
      rw [findUnitRow_someAcc t j rest i r]
      constructor
      · rintro ⟨rfl, hall⟩
        refine ⟨List.mem_cons_self r rest, h1, ?_⟩
        intro x hx hxne
        rcases List.mem_cons.mp hx with rfl | hx2
        · exact absurd rfl hxne
        · exact hall x hx2
      · rintro ⟨hmem, hr1, hall⟩
        rcases List.mem_cons.mp hmem with rfl | hmem2
        · exact ⟨rfl, fun x hx => hall x (List.mem_cons_of_mem _ hx)
            (fun hxr => hiNot (hxr ▸ hx))⟩
        · have hri : i ≠ r := fun h => hiNot (h ▸ hmem2)
          exact absurd (hall i (List.mem_cons_self i rest) hri)
            (by rw [h1]; norm_num)
    · by_cases h0 : entry t i j = 0
      · rw [show findUnitRow t j (i :: rest) none =
            findUnitRow t j rest none from by simp [findUnitRow, h1, h0]]
        rw [ih hrest r]
        constructor
        · rintro ⟨hmem, hr1, hall⟩
          refine ⟨List.mem_cons_of_mem _ hmem, hr1, ?_⟩
          intro x hx hxne
          rcases List.mem_cons.mp hx with rfl | hx2
          · exact h0
          · exact hall x hx2 hxne
        · rintro ⟨hmem, hr1, hall⟩
          rcases List.mem_cons.mp hmem with rfl | hmem2
          · exact absurd h0 (by rw [hr1]; norm_num)
          · exact ⟨hmem2, hr1,
              fun x hx hxne => hall x (List.mem_cons_of_mem _ hx) hxne⟩
      · rw [show findUnitRow t j (i :: rest) none = none from by
          simp [findUnitRow, h1, h0]]
        constructor
        · intro h; simp at h
        · rintro ⟨hmem, hr1, hall⟩
          rcases List.mem_cons.mp hmem with rfl | hmem2
          · exact absurd hr1 h1
          · have hri : i ≠ r := fun h => hiNot (h ▸ hmem2)
            exact absurd (hall i (List.mem_cons_self i rest) hri) h0

theorem basicRow_eq_some (t : Tableau) (j r : Nat) :
    basicRow t j = some r ↔
      (1 ≤ r ∧ r < t.length ∧ entry t r j = 1 ∧
        ∀ i, 1 ≤ i → i < t.length → i ≠ r → entry t i j = 0) := by
  unfold basicRow
  rw [findUnitRow_noneAcc t j _ (List.nodup_range' _ _) r]
  constructor
  · rintro ⟨hmem, h1, hall⟩
    have hm := List.mem_range'_1.mp hmem
    refine ⟨hm.1, by omega, h1, ?_⟩
    intro i hi1 hi2 hine
    exact hall i (List.mem_range'_1.mpr ⟨hi1, by omega⟩) hine
  · rintro ⟨hr1, hr2, h1, hall⟩
    refine ⟨List.mem_range'_1.mpr ⟨hr1, by omega⟩, h1, ?_⟩
    intro i hi hine
    have hm := List.mem_range'_1.mp hi
    exact hall i hm.1 (by omega) hine

/-- C3: the extractor assigns decision variable `j < variablesCount` the
value `RHS[row]` exactly when column `j` over the constraint rows contains
exactly one entry equal to `1` (at `row`) and `0` everywhere else, and `0`
otherwise; and the objective value is `-tableau[0][lastCol]` when maximizing
and `tableau[0][lastCol]` when minimizing. -/
theorem extractSolutionSpec (ot : ObjectiveType) (nVars : Nat) (t : Tableau)
    (j : Nat) (hj : j < nVars) :
    ((∃ r, 1 ≤ r ∧ r < t.length ∧ entry t r j = 1 ∧
        (∀ i, 1 ≤ i → i < t.length → i ≠ r → entry t i j = 0) ∧
        (extractSolution ot nVars t).1.getD j 0 =
          entry t r (rowLen t - 1)) ∨
      ((¬ ∃ r, 1 ≤ r ∧ r < t.length ∧ entry t r j = 1 ∧
          ∀ i, 1 ≤ i → i < t.length → i ≠ r → entry t i j = 0) ∧
        (extractSolution ot nVars t).1.getD j 0 = 0)) ∧
    (extractSolution ObjectiveType.maximize nVars t).2 =
      -(entry t 0 (rowLen t - 1)) ∧
    (extractSolution ObjectiveType.minimize nVars t).2 =
      entry t 0 (rowLen t - 1) := by
  refine ⟨?_, by simp [extractSolution], by simp [extractSolution]⟩
  have hval : (extractSolution ot nVars t).1.getD j 0 =
      match basicRow t j with
      | some i => entry t i (rowLen t - 1)
      | none => (0 : ℚ) := by
    simp only [extractSolution]
    rw [getD_rangeMap nVars _ 0 j hj]
  cases hb : basicRow t j with
  | some r =>
    left
    obtain ⟨h1, h2, h3, h4⟩ := (basicRow_eq_some t j r).mp hb
    exact ⟨r, h1, h2, h3, h4, by rw [hval, hb]⟩
  | none =>
    right
    constructor
    · rintro ⟨r, h1, h2, h3, h4⟩
      have hsome := (basicRow_eq_some t j r).mpr ⟨h1, h2, h3, h4⟩
      rw [hb] at hsome
      simp at hsome
    · rw [hval, hb]

/-- Witness for C3: the objective part of the characterization at a concrete
terminal tableau. -/
theorem extractSolutionSpec_witness :
    (extractSolution ObjectiveType.maximize 1 [[0, 5], [1, 7]]).2 =
      -(entry [[0, 5], [1, 7]] 0 (rowLen [[0, 5], [1, 7]] - 1)) :=
  (extractSolutionSpec ObjectiveType.maximize 1 [[0, 5], [1, 7]] 0
    (by norm_num)).2.1

/-! ### Pivot row selection -/

theorem findPivotRowGo_someAcc_ne_none (t : Tableau) (col lastCol : Nat) :
    ∀ (l : List Nat) (m : ℚ) (b : Nat),
      findPivotRowGo t col lastCol l (some m) (some b) ≠ none := by
  intro l
  induction l with
  | nil =>
    intro m b h
    simp [findPivotRowGo] at h
  | cons i rest ih =>
    intro m b h
    by_cases hle : entry t i col ≤ 0
    · rw [show findPivotRowGo t col lastCol (i :: rest) (some m) (some b) =
          findPivotRowGo t col lastCol rest (some m) (some b) from by
        simp [findPivotRowGo, hle]] at h
      exact ih m b h
    · by_cases hlt : entry t i lastCol / entry t i col < m
      · rw [show findPivotRowGo t col lastCol (i :: rest) (some m) (some b) =
            findPivotRowGo t col lastCol rest
              (some (entry t i lastCol / entry t i col)) (some i) from by
          simp [findPivotRowGo, hle, ratioBelow, hlt]] at h
        exact ih _ i h
      · rw [show findPivotRowGo t col lastCol (i :: rest) (some m) (some b) =
            findPivotRowGo t col lastCol rest (some m) (some b) from by
          simp [findPivotRowGo, hle, ratioBelow, hlt]] at h
        exact ih m b h

theorem findPivotRowGo_someAcc (t : Tableau) (col lastCol : Nat) :
    ∀ (l : List Nat), l.Pairwise (· < ·) →
      ∀ (m : ℚ) (b r : Nat),
        findPivotRowGo t col lastCol l (some m) (some b) = some r →
        (r = b ∧ ∀ i ∈ l, 0 < entry t i col →
            m ≤ entry t i lastCol / entry t i col) ∨
        (r ∈ l ∧ 0 < entry t r col ∧
          entry t r lastCol / entry t r col < m ∧
          (∀ i ∈ l, 0 < entry t i col →
            entry t r lastCol / entry t r col ≤
              entry t i lastCol / entry t i col) ∧
          (∀ i ∈ l, i < r → 0 < entry t i col →
            entry t r lastCol / entry t r col <
              entry t i lastCol / entry t i col)) := by
  intro l
  induction l with
  | nil =>
    intro _ m b r h
    simp only [findPivotRowGo, Option.some.injEq] at h
    exact Or.inl ⟨h.symm, by simp⟩
  | cons i rest ih =>
    intro hpw m b r h
    have hiBelow : ∀ x ∈ rest, i < x := (List.pairwise_cons.mp hpw).1
    have hrest : rest.Pairwise (· < ·) := (List.pairwise_cons.mp hpw).2
    by_cases hle : entry t i col ≤ 0
    · rw [show findPivotRowGo t col lastCol (i :: rest) (some m) (some b) =
          findPivotRowGo t col lastCol rest (some m) (some b) from by
        simp [findPivotRowGo, hle]] at h
      rcases ih hrest m b r h with ⟨hb, hall⟩ | ⟨hmem, hpr, hltm, hall, hstr⟩
      · refine Or.inl ⟨hb, ?_⟩
        intro x hx hxpos
        rcases List.mem_cons.mp hx with rfl | hx2
        · exact absurd hxpos (not_lt.mpr hle)
        · exact hall x hx2 hxpos
      · refine Or.inr ⟨List.mem_cons_of_mem _ hmem, hpr, hltm, ?_, ?_⟩
        · intro x hx hxpos
          rcases List.mem_cons.mp hx with rfl | hx2
          · exact absurd hxpos (not_lt.mpr hle)
          · exact hall x hx2 hxpos
        · intro x hx hxr hxpos
          rcases List.mem_cons.mp hx with rfl | hx2
          · exact absurd hxpos (not_lt.mpr hle)
          · exact hstr x hx2 hxr hxpos
    · have hpos : 0 < entry t i col := not_le.mp hle
      by_cases hlt : entry t i lastCol / entry t i col < m
      · rw [show findPivotRowGo t col lastCol (i :: rest) (some m) (some b) =
            findPivotRowGo t col lastCol rest
              (some (entry t i lastCol / entry t i col)) (some i) from by
          simp [findPivotRowGo, hle, ratioBelow, hlt]] at h
        rcases ih hrest _ i r h with ⟨rfl, hall⟩ |
          ⟨hmem, hpr, hltm, hall, hstr⟩
        · refine Or.inr ⟨List.mem_cons_self r rest, hpos, hlt, ?_, ?_⟩
          · intro x hx hxpos
            rcases List.mem_cons.mp hx with rfl | hx2
            · exact le_refl _
            · exact hall x hx2 hxpos
          · intro x hx hxr hxpos
            rcases List.mem_cons.mp hx with rfl | hx2
            · omega
            · exact absurd hxr (by have := hiBelow x hx2; omega)
        · refine Or.inr ⟨List.mem_cons_of_mem _ hmem, hpr,
            lt_trans hltm hlt, ?_, ?_⟩
          · intro x hx hxpos
            rcases List.mem_cons.mp hx with rfl | hx2
            · exact le_of_lt hltm
            · exact hall x hx2 hxpos
          · intro x hx hxr hxpos
            rcases List.mem_cons.mp hx with rfl | hx2
            · exact hltm
            · exact hstr x hx2 hxr hxpos
      · rw [show findPivotRowGo t col lastCol (i :: rest) (some m) (some b) =
            findPivotRowGo t col lastCol rest (some m) (some b) from by
          simp [findPivotRowGo, hle, ratioBelow, hlt]] at h
        rcases ih hrest m b r h with ⟨hb, hall⟩ |
          ⟨hmem, hpr, hltm, hall, hstr⟩
        · refine Or.inl ⟨hb, ?_⟩
          intro x hx hxpos
          rcases List.mem_cons.mp hx with rfl | hx2
          · exact not_lt.mp hlt
          · exact hall x hx2 hxpos
        · refine Or.inr ⟨List.mem_cons_of_mem _ hmem, hpr, hltm, ?_, ?_⟩
          · intro x hx hxpos
            rcases List.mem_cons.mp hx with rfl | hx2
            · exact le_of_lt (lt_of_lt_of_le hltm (not_lt.mp hlt))
            · exact hall x hx2 hxpos
          · intro x hx hxr hxpos
            rcases List.mem_cons.mp hx with rfl | hx2
            · exact lt_of_lt_of_le hltm (not_lt.mp hlt)
            · exact hstr x hx2 hxr hxpos

theorem findPivotRowGo_start (t : Tableau) (col lastCol : Nat) :
    ∀ (l : List Nat), l.Pairwise (· < ·) →
      ∀ r, findPivotRowGo t col lastCol l none none = some r →
        r ∈ l ∧ 0 < entry t r col ∧
        (∀ i ∈ l, 0 < entry t i col →
          entry t r lastCol / entry t r col ≤
            entry t i lastCol / entry t i col) ∧
        (∀ i ∈ l, i < r → 0 < entry t i col →
          entry t r lastCol / entry t r col <
            entry t i lastCol / entry t i col) := by
  intro l
  induction l with
  | nil =>
    intro _ r h
    simp [findPivotRowGo] at h
  | cons i rest ih =>
    intro hpw r h
    have hiBelow : ∀ x ∈ rest, i < x := (List.pairwise_cons.mp hpw).1
    have hrest : rest.Pairwise (· < ·) := (List.pairwise_cons.mp hpw).2
    by_cases hle : entry t i col ≤ 0
    · rw [show findPivotRowGo t col lastCol (i :: rest) none none =
          findPivotRowGo t col lastCol rest none none from by
        simp [findPivotRowGo, hle]] at h
      obtain ⟨hmem, hpr, hall, hstr⟩ := ih hrest r h
      refine ⟨List.mem_cons_of_mem _ hmem, hpr, ?_, ?_⟩
      · intro x hx hxpos
        rcases List.mem_cons.mp hx with rfl | hx2
        · exact absurd hxpos (not_lt.mpr hle)
        · exact hall x hx2 hxpos
      · intro x hx hxr hxpos
        rcases List.mem_cons.mp hx with rfl | hx2
        · exact absurd hxpos (not_lt.mpr hle)
        · exact hstr x hx2 hxr hxpos
    · have hpos : 0 < entry t i col := not_le.mp hle
      rw [show findPivotRowGo t col lastCol (i :: rest) none none =
          findPivotRowGo t col lastCol rest
            (some (entry t i lastCol / entry t i col)) (some i) from by
        simp [findPivotRowGo, hle, ratioBelow]] at h
      rcases findPivotRowGo_someAcc t col lastCol rest hrest _ i r h with
        ⟨rfl, hall⟩ | ⟨hmem, hpr, hltm, hall, hstr⟩
      · refine ⟨List.mem_cons_self r rest, hpos, ?_, ?_⟩
        · intro x hx hxpos
          rcases List.mem_cons.mp hx with rfl | hx2
          · exact le_refl _
          · exact hall x hx2 hxpos
        · intro x hx hxr hxpos
          rcases List.mem_cons.mp hx with rfl | hx2
          · omega
          · exact absurd hxr (by have := hiBelow x hx2; omega)
      · refine ⟨List.mem_cons_of_mem _ hmem, hpr, ?_, ?_⟩
        · intro x hx hxpos
          rcases List.mem_cons.mp hx with rfl | hx2
          · exact le_of_lt hltm
          · exact hall x hx2 hxpos
        · intro x hx hxr hxpos
          rcases List.mem_cons.mp hx with rfl | hx2
          · exact hltm
          · exact hstr x hx2 hxr hxpos

theorem findPivotRowGo_eq_none_iff (t : Tableau) (col lastCol : Nat) :
    ∀ (l : List Nat),
      (findPivotRowGo t col lastCol l none none = none ↔
        ∀ i ∈ l, entry t i col ≤ 0) := by
  intro l
  induction l with
  | nil => simp [findPivotRowGo]
  | cons i rest ih =>
    by_cases hle : entry t i col ≤ 0
    · rw [show findPivotRowGo t col lastCol (i :: rest) none none =
          findPivotRowGo t col lastCol rest none none from by
        simp [findPivotRowGo, hle]]
      rw [ih]
      constructor
      · intro hall x hx
        rcases List.mem_cons.mp hx with rfl | hx2
        · exact hle
        · exact hall x hx2
      · intro hall x hx
        exact hall x (List.mem_cons_of_mem _ hx)
    · rw [show findPivotRowGo t col lastCol (i :: rest) none none =
          findPivotRowGo t col lastCol rest
            (some (entry t i lastCol / entry t i col)) (some i) from by
        simp [findPivotRowGo, hle, ratioBelow]]
      constructor
      · intro h
        exact absurd h (findPivotRowGo_someAcc_ne_none t col lastCol rest _ i)
      · intro hall
        exact absurd (hall i (List.mem_cons_self i rest)) hle

/-- C5: `findPivotRow` returns `none` exactly when no constraint row has a
strictly positive entry in the pivot column; otherwise it returns the first
constraint row achieving the minimum of `RHS / entry` among the rows with a
strictly positive entry (strictly better than every earlier such row,
no worse than every later one). -/
theorem findPivotRowSpec (t : Tableau) (col : Nat) :
    (findPivotRow t col = none ↔
      ∀ i, 1 ≤ i → i < t.length → entry t i col ≤ 0) ∧
    (∀ r, findPivotRow t col = some r →
      1 ≤ r ∧ r < t.length ∧ 0 < entry t r col ∧
      (∀ i, 1 ≤ i → i < t.length → 0 < entry t i col →
        entry t r (rowLen t - 1) / entry t r col ≤
          entry t i (rowLen t - 1) / entry t i col) ∧
      (∀ i, 1 ≤ i → i < r → 0 < entry t i col →
        entry t r (rowLen t - 1) / entry t r col <
          entry t i (rowLen t - 1) / entry t i col)) := by
  constructor
  · unfold findPivotRow
    rw [findPivotRowGo_eq_none_iff]
    constructor
    · intro hall i hi1 hi2
      exact hall i (List.mem_range'_1.mpr ⟨hi1, by omega⟩)
    · intro hall i hi
      have hm := List.mem_range'_1.mp hi
      exact hall i hm.1 (by omega)
  · intro r hr
    obtain ⟨hmem, hpr, hall, hstr⟩ := findPivotRowGo_start t col
      (rowLen t - 1) _ (List.pairwise_lt_range' 1 (t.length - 1)) r hr
    have hm := List.mem_range'_1.mp hmem
    refine ⟨hm.1, by omega, hpr, ?_, ?_⟩
    · intro i hi1 hi2 hipos
      exact hall i (List.mem_range'_1.mpr ⟨hi1, by omega⟩) hipos
    · intro i hi1 hir hipos
      have hi2 : i < t.length := by omega
      exact hstr i (List.mem_range'_1.mpr ⟨hi1, by omega⟩) hir hipos

/-- Witness for C5: on the Example-1 initial tableau and pivot column 0,
`findPivotRow` returns row 1, which has a positive entry and the minimum
ratio. -/
theorem findPivotRowSpec_witness :
    0 < entry [[-3, -2, 0, 0, 0], [1, 1, 1, 0, 4], [1, 3, 0, 1, 6]] 1 0 :=
  ((findPivotRowSpec [[-3, -2, 0, 0, 0], [1, 1, 1, 0, 4], [1, 3, 0, 1, 6]]
      0).2 1
    (by norm_num [findPivotRow, findPivotRowGo, ratioBelow, entry, rowLen,
      List.range'])).2.2.1

/-- C10: whenever the loop invokes the pivot operation the pivot element is
strictly positive — `findPivotRow` only ever returns a constraint row with a
strictly positive entry in the pivot column, and when it returns `none` the
loop short-circuits to the unbounded outcome without pivoting. -/
theorem pivotDivisionSafe :
    (∀ (t : Tableau) (col r : Nat), findPivotRow t col = some r →
      1 ≤ r ∧ r < t.length ∧ 0 < entry t r col) ∧
    (∀ (ot : ObjectiveType) (nVars fuel iteration : Nat) (t : Tableau)
        (steps : List TableauStep),
      canImprove t = true → findPivotRow t (findPivotColumn t) = none →
      solveLoop ot nVars (fuel + 1) t iteration steps =
        (steps ++ [unboundedStep t], SolveResult.unbounded, 0)) := by
  constructor
  · intro t col r hr
    obtain ⟨hmem, hpr, _, _⟩ := findPivotRowGo_start t col
      (rowLen t - 1) _ (List.pairwise_lt_range' 1 (t.length - 1)) r hr
    have hm := List.mem_range'_1.mp hmem
    exact ⟨hm.1, by omega, hpr⟩
  · intro ot nVars fuel iteration t steps hcan hnone
    simp [solveLoop, hcan, hnone]

/-- Witness for C10: a concrete selector call returning a row whose pivot
entry is strictly positive. -/
theorem pivotDivisionSafe_witness :
    1 ≤ 1 ∧ 1 < ([[-1, 0], [2, 4]] : Tableau).length ∧
      0 < entry [[-1, 0], [2, 4]] 1 0 :=
  pivotDivisionSafe.1 [[-1, 0], [2, 4]] 0 1
    (by norm_num [findPivotRow, findPivotRowGo, ratioBelow, entry, rowLen,
      List.range'])

/-! ### Step recording -/

theorem solveLoop_stepCount (ot : ObjectiveType) (nVars : Nat) :
    ∀ (fuel : Nat) (t : Tableau) (iteration : Nat)
      (steps : List TableauStep),
      (solveLoop ot nVars fuel t iteration steps).2.1 ≠
        SolveResult.outOfFuel →
      (solveLoop ot nVars fuel t iteration steps).1.length =
        steps.length + 2 * (solveLoop ot nVars fuel t iteration steps).2.2
          + 1 ∧
      ((solveLoop ot nVars fuel t iteration steps).2.1 =
          SolveResult.unbounded →
        ((solveLoop ot nVars fuel t iteration steps).1.getLast?).map
            TableauStep.description = some "Problem is unbounded") := by
  intro fuel
  induction fuel with
  | zero =>
    intro t iteration steps h
    exact absurd rfl h
  | succ fuel ih =>
    intro t iteration steps h
    by_cases hcan : canImprove t
    · cases hrow : findPivotRow t (findPivotColumn t) with
      | none =>
        rw [show solveLoop ot nVars (fuel + 1) t iteration steps =
            (steps ++ [unboundedStep t], SolveResult.unbounded, 0) from by
          simp [solveLoop, hcan, hrow]]
        refine ⟨by simp, ?_⟩
        intro _
        simp [unboundedStep]
      | some row =>
        rw [show solveLoop ot nVars (fuel + 1) t iteration steps =
            ((solveLoop ot nVars fuel (performPivot t row
                (findPivotColumn t)) (iteration + 1)
              (steps ++ [preStep t row (findPivotColumn t) iteration,
                postStep (performPivot t row (findPivotColumn t))
                  iteration])).1,
             (solveLoop ot nVars fuel (performPivot t row
                (findPivotColumn t)) (iteration + 1)
              (steps ++ [preStep t row (findPivotColumn t) iteration,
                postStep (performPivot t row (findPivotColumn t))
                  iteration])).2.1,
             (solveLoop ot nVars fuel (performPivot t row
                (findPivotColumn t)) (iteration + 1)
              (steps ++ [preStep t row (findPivotColumn t) iteration,
                postStep (performPivot t row (findPivotColumn t))
                  iteration])).2.2 + 1) from by
          simp [solveLoop, hcan, hrow]] at h ⊢
        obtain ⟨hlen, hunb⟩ := ih (performPivot t row (findPivotColumn t))
          (iteration + 1)
          (steps ++ [preStep t row (findPivotColumn t) iteration,
            postStep (performPivot t row (findPivotColumn t)) iteration]) h
        refine ⟨?_, hunb⟩
        rw [hlen]
        simp
        omega
    · rw [show solveLoop ot nVars (fuel + 1) t iteration steps =
          (steps ++ [finalStep t],
            SolveResult.optimal (extractSolution ot nVars t).1
              (extractSolution ot nVars t).2, 0) from by
        simp [solveLoop, hcan]]
      refine ⟨by simp, ?_⟩
      intro hu
      simp at hu

/-- C7 (amended): for every solve that terminates, the step history has
exactly `1 + 2k + 1` entries where `k` is the number of pivots performed —
one initial snapshot, a pre- and post-pivot snapshot per pivot, and one
final snapshot; when unboundedness is discovered on the `j`-th pivot
attempt, `k = j - 1` pivots were performed, the history has
`1 + 2(j-1) + 1` entries and ends with the 'unbounded' snapshot. -/
theorem stepHistoryLength (p : LinearProgram) (fuel : Nat)
    (h : (solveSimplexMethod p fuel).2.1 ≠ SolveResult.outOfFuel) :
    (solveSimplexMethod p fuel).1.length =
      1 + 2 * (solveSimplexMethod p fuel).2.2 + 1 ∧
    ((solveSimplexMethod p fuel).2.1 = SolveResult.unbounded →
      ((solveSimplexMethod p fuel).1.getLast?).map TableauStep.description =
        some "Problem is unbounded") := by
  have hmain := solveLoop_stepCount p.objectiveType (variablesCount p) fuel
    (createInitialTableau p) 1
    [⟨createInitialTableau p, none, "Initial tableau"⟩]
    (by simpa [solveSimplexMethod] using h)
  constructor
  · have := hmain.1
    simpa [solveSimplexMethod] using this
  · intro hu
    have := hmain.2 (by simpa [solveSimplexMethod] using hu)
    simpa [solveSimplexMethod] using this

/-- Witness for C7: the Example-1 solve terminates (with one pivot) and its
step history has `1 + 2·1 + 1 = 4` entries. -/
theorem stepHistoryLength_witness :
    (solveSimplexMethod exampleOne 10).1.length =
      1 + 2 * (solveSimplexMethod exampleOne 10).2.2 + 1 :=
  (stepHistoryLength exampleOne 10 (by
    rw [show (solveSimplexMethod exampleOne 10).2.1 =
        SolveResult.optimal [4, 0] (-12) from by
      norm_num [solveSimplexMethod, solveLoop, createInitialTableau,
        exampleOne, variablesCount, constraintsCount, canImprove,
        findPivotColumn, findPivotRow, findPivotRowGo, ratioBelow,
        performPivot, entry, rowLen, extractSolution, basicRow, findUnitRow,
        List.range, List.range.loop, List.range', cDefault, List.findIdx,
        List.findIdx.go]]
    simp)).1

/-- C7 counterexample: on `maximize x₁ subject to -x₁ ≤ 1` unboundedness is
discovered on the first pivot attempt (zero pivots performed), and the
recorded history has `2` steps, not the `1 + 2·1 + 1 = 4` the claim's
formula gives for the first attempt. -/
theorem stepHistoryLengthCounterexample :
    (solveSimplexMethod unboundedAtOnce 5).2.1 = SolveResult.unbounded ∧
    (solveSimplexMethod unboundedAtOnce 5).2.2 = 0 ∧
    (solveSimplexMethod unboundedAtOnce 5).1.length = 2 ∧
    (2 : Nat) ≠ 1 + 2 * 1 + 1 := by
  refine ⟨?_, ?_, ?_, by norm_num⟩ <;>
    norm_num [solveSimplexMethod, solveLoop, createInitialTableau,
      unboundedAtOnce, variablesCount, constraintsCount, canImprove,
      findPivotColumn, findPivotRow, findPivotRowGo, ratioBelow,
      performPivot, entry, rowLen, extractSolution, basicRow, findUnitRow,
      List.range, List.range.loop, List.range', cDefault, List.findIdx,
      List.findIdx.go]

/-- C1 (evaluation at the claim's input): on the textbook program
`maximize 3x₁ + 2x₂, x₁ + x₂ ≤ 4, x₁ + 3x₂ ≤ 6` the solve returns status
optimal with `x₁ = 4, x₂ = 0` — but objective value `-12`, not the correct
optimum `12` the specification expects: `extractSolution` negates the
already-positive accumulated objective for a maximization. -/
theorem exampleOneEvaluation :
    (solveSimplexMethod exampleOne 10).2.1 =
      SolveResult.optimal [4, 0] (-12) ∧
    (solveSimplexMethod exampleOne 10).2.1 ≠
      SolveResult.optimal [4, 0] 12 := by
  have hres : (solveSimplexMethod exampleOne 10).2.1 =
      SolveResult.optimal [4, 0] (-12) := by
    norm_num [solveSimplexMethod, solveLoop, createInitialTableau,
      exampleOne, variablesCount, constraintsCount, canImprove,
      findPivotColumn, findPivotRow, findPivotRowGo, ratioBelow,
      performPivot, entry, rowLen, extractSolution, basicRow, findUnitRow,
      List.range, List.range.loop, List.range', cDefault, List.findIdx,
      List.findIdx.go]
  refine ⟨hres, ?_⟩
  rw [hres]
  intro hcontra
  have := (SolveResult.optimal.injEq _ _ _ _).mp hcontra
  norm_num at this

/-! ### Dual transformation -/

theorem getD_map_value (l : List Constraint) (f : Constraint → ℚ) (i : Nat)
    (h : i < l.length) : (l.map f).getD i 0 = f (l.getD i cDefault) := by
  simp [List.getD_eq_getElem?_getD, List.getElem?_map,
    List.getElem?_eq_getElem h]

/-- C8: the dual has the opposite objective direction, its objective
coefficient `i` is primal constraint `i`'s value (dual variable count =
primal constraint count), and its constraint `k` — one per primal variable —
has coefficient `i` equal to primal constraint `i`'s coefficient `k`
(the transpose), relation `≥` when the primal maximizes (else `≤`), and
value the primal objective coefficient `k`. -/
theorem dualProblemSpec (p : LinearProgram)
    (_hshape : ∀ c ∈ p.constraints,
      c.coefficients.length = variablesCount p) :
    (dualProblem p).objectiveType =
      (match p.objectiveType with
        | ObjectiveType.maximize => ObjectiveType.minimize
        | ObjectiveType.minimize => ObjectiveType.maximize) ∧
    variablesCount (dualProblem p) = constraintsCount p ∧
    (∀ i, i < constraintsCount p →
      (dualProblem p).objectiveCoefficients.getD i 0 =
        (p.constraints.getD i cDefault).value) ∧
    constraintsCount (dualProblem p) = variablesCount p ∧
    (∀ k, k < variablesCount p →
      ((dualProblem p).constraints.getD k cDefault).coefficients.length =
        constraintsCount p ∧
      (∀ i, i < constraintsCount p →
        ((dualProblem p).constraints.getD k cDefault).coefficients.getD i 0 =
          (p.constraints.getD i cDefault).coefficients.getD k 0) ∧
      ((dualProblem p).constraints.getD k cDefault).relation =
        (match p.objectiveType with
          | ObjectiveType.maximize => Relation.ge
          | ObjectiveType.minimize => Relation.le) ∧
      ((dualProblem p).constraints.getD k cDefault).value =
        p.objectiveCoefficients.getD k 0) := by
  refine ⟨rfl, ?_, ?_, ?_, ?_⟩
  · simp [dualProblem, variablesCount, constraintsCount]
  · intro i hi
    simp only [dualProblem]
    exact getD_map_value p.constraints _ i hi
  · simp [dualProblem, variablesCount, constraintsCount]
  · intro k hk
    have hrow : (dualProblem p).constraints.getD k cDefault =
        { coefficients := p.constraints.map fun c => c.coefficients.getD k 0
          relation := match p.objectiveType with
            | ObjectiveType.maximize => Relation.ge
            | ObjectiveType.minimize => Relation.le
          value := p.objectiveCoefficients.getD k 0 : Constraint} := by
      simp only [dualProblem]
      exact getD_rangeMap (variablesCount p) _ cDefault k hk
    refine ⟨?_, ?_, ?_, ?_⟩
    · rw [hrow]
      simp [constraintsCount]
    · intro i hi
      rw [hrow]
      exact getD_map_value p.constraints _ i hi
    · rw [hrow]
    · rw [hrow]

/-- Witness for C8: the Example-3 primal (maximize, constraints
`[[2,1],[1,3]]`, values `[10,15]`, objective `[5,4]`) yields a dual with two
variables (= primal constraint count). -/
theorem dualProblemSpec_witness :
    variablesCount (dualProblem exampleThree) = constraintsCount exampleThree :=
  (dualProblemSpec exampleThree (by decide)).2.1

/-- C9: applying the dual transformation twice to a shape-consistent program
whose constraints all share one relation returns a program with the
original objective direction, variable count, and constraint count. -/
theorem doubleDualShape (p : LinearProgram) (r0 : Relation)
    (_hshape : ∀ c ∈ p.constraints,
      c.coefficients.length = variablesCount p)
    (_hrel : ∀ c ∈ p.constraints, c.relation = r0) :
    (dualProblem (dualProblem p)).objectiveType = p.objectiveType ∧
    variablesCount (dualProblem (dualProblem p)) = variablesCount p ∧
    constraintsCount (dualProblem (dualProblem p)) = constraintsCount p := by
  refine ⟨?_, ?_, ?_⟩
  · cases h : p.objectiveType <;> simp [dualProblem, h]
  · simp [dualProblem, variablesCount, constraintsCount]
  · simp [dualProblem, variablesCount, constraintsCount]

/-- Witness for C9: the double dual of the Example-3 program keeps its
objective direction, variable count, and constraint count. -/
theorem doubleDualShape_witness :
    (dualProblem (dualProblem exampleThree)).objectiveType =
      exampleThree.objectiveType ∧
    variablesCount (dualProblem (dualProblem exampleThree)) =
      variablesCount exampleThree ∧
    constraintsCount (dualProblem (dualProblem exampleThree)) =
      constraintsCount exampleThree :=
  doubleDualShape exampleThree Relation.le (by decide) (by decide)

end SimplexApp
